import Mathlib

/-!
Verification of the genbase server core: the HCL dependency-reference
analyzer (`CodeService` in `services/code_service.py`) and the Git
worktree lifecycle manager (`GitService` in `services/git_service.py`).

Python strings are modelled as `List Char` (`Str`), Python dicts of
parsed HCL values as an explicit tree (`HValue`), and the `re` pattern
matching used by `_extract_references` as an executable left-to-right
scanner (`scan`) specialised to the five patterns of the source, which
all have the shape: word boundary, literal prefix, then dot-separated
identifier groups drawn from `[a-zA-Z_][a-zA-Z0-9_]*`.  Because the
identifier class cannot match `.`, greedy maximal-munch is exactly the
Python regex semantics for these patterns and no backtracking exists.
-/

namespace Genbase

/-- Python strings, modelled as lists of characters. -/
abbrev Str := List Char

/-- The character class `\w` = `[a-zA-Z0-9_]` of the source's regexes
(`Char.isAlpha`/`Char.isDigit` are exactly the ASCII ranges). -/
def wordChar (c : Char) : Bool := c.isAlpha || c.isDigit || c == '_'

/-- The class `[a-zA-Z_]` starting each identifier group. -/
def identStartChar (c : Char) : Bool := c.isAlpha || c == '_'

/-- A nonempty identifier: `[a-zA-Z_][a-zA-Z0-9_]*`. -/
def isIdentChars : Str → Bool
| [] => false
| c :: t => identStartChar c && t.all wordChar

/-- The next character (if any) is not a `\w` character; used to state
that maximal munch stops exactly at a given point. -/
def headNotWord : Str → Bool
| [] => true
| c :: _ => !wordChar c

/-- Match one identifier group by maximal munch: the head must be in
`[a-zA-Z_]`, then the longest run of `\w` characters is taken.  Returns
the group and the remaining characters. -/
def munchIdent : Str → Option (Str × Str)
| [] => none
| c :: cs =>
  if identStartChar c then some (c :: cs.takeWhile wordChar, cs.dropWhile wordChar)
  else none

/-- Match `k` identifier groups separated by literal dots, returning the
groups and the rest of the input. -/
def matchIdents : Nat → Str → Option (List Str × Str)
| 0, cs => some ([], cs)
| 1, cs =>
  match munchIdent cs with
  | none => none
  | some (w, rest) => some ([w], rest)
| k + 2, cs =>
  match munchIdent cs with
  | none => none
  | some (w, rest) =>
    match rest with
    | '.' :: rest2 =>
      match matchIdents (k + 1) rest2 with
      | none => none
      | some (ws, rest3) => some (w :: ws, rest3)
    | _ => none

/-- Match a literal character sequence at the head of the input. -/
def matchLiteral : Str → Str → Option Str
| [], cs => some cs
| _ :: _, [] => none
| p :: ps, c :: cs => if c = p then matchLiteral ps cs else none

/-- Attempt one of the source's patterns (literal prefix `pre`, then `k`
dot-separated identifier groups) anchored at the head of `cs`; returns
the captured groups and the number of characters consumed. -/
def matchPat (pre : Str) (k : Nat) (cs : Str) : Option (List Str × Nat) :=
  match matchLiteral pre cs with
  | none => none
  | some rest =>
    match matchIdents k rest with
    | none => none
    | some (gs, rest2) => some (gs, cs.length - rest2.length)

/-- Fuelled scanner implementing `re.finditer` for the source's
patterns: try the pattern at each position whose preceding character is
not a word character (the `\b` anchor; every pattern starts with a word
character), and continue after the end of each match (matches do not
overlap).  The fuel starts at the length of the string and each step
consumes at least one character, so fuel never runs out early. -/
def scanAux (pre : Str) (k : Nat) : Nat → Str → Bool → List (List Str)
| 0, _, _ => []
| _ + 1, [], _ => []
| fuel + 1, c :: cs, prevWord =>
  if prevWord then scanAux pre k fuel cs (wordChar c)
  else
    match matchPat pre k (c :: cs) with
    | some (g, n) => g :: scanAux pre k fuel (cs.drop (n - 1)) true
    | none => scanAux pre k fuel cs (wordChar c)

/-- All matches of a pattern in a string, in order (`re.finditer`). -/
def scan (pre : Str) (k : Nat) (s : Str) : List (List Str) :=
  scanAux pre k s.length s false

-- Parsed HCL values: the `Any` config payloads walked by
-- `_extract_references` (strings are scanned, dicts recurse on values,
-- lists recurse on items, everything else is ignored).
mutual
inductive HValue where
| str (s : Str) : HValue
| other : HValue
| dict (d : HDict) : HValue
| arr (l : HList) : HValue
inductive HDict where
| nil : HDict
| cons (key : Str) (val : HValue) (rest : HDict) : HDict
inductive HList where
| nil : HList
| cons (val : HValue) (rest : HList) : HList
end

/-- The keys of a dict, in order (`config.keys()`). -/
def HDict.keys : HDict → List Str
| .nil => []
| .cons k _ rest => k :: rest.keys

/-- `ReferenceType` enum of the source. -/
inductive ReferenceType where
| RESOURCE_TO_RESOURCE
| MODULE_TO_RESOURCE
| DATA_TO_RESOURCE
| OUTPUT_TO_RESOURCE
| VARIABLE_REFERENCE
| LOCAL_REFERENCE
| DATASOURCE_DEPENDENCY
| MODULE_DEPENDENCY
deriving DecidableEq, Repr

/-- The string value of each enum member (`ReferenceType(str, Enum)`). -/
def ReferenceType.value : ReferenceType → Str
| .RESOURCE_TO_RESOURCE => "resource_to_resource".toList
| .MODULE_TO_RESOURCE => "module_to_resource".toList
| .DATA_TO_RESOURCE => "data_to_resource".toList
| .OUTPUT_TO_RESOURCE => "output_to_resource".toList
| .VARIABLE_REFERENCE => "variable_reference".toList
| .LOCAL_REFERENCE => "local_reference".toList
| .DATASOURCE_DEPENDENCY => "datasource_dependency".toList
| .MODULE_DEPENDENCY => "module_dependency".toList

/-- One reference edge produced by `_extract_references`: the dict
`{"from": ..., "to": ..., "type": ..., **additional_info}` where
`additional_info` holds `target_output` (module references) or
`target_attribute` (data-source and resource references). -/
structure Ref where
  fromAddress : Str
  toAddress : Str
  rtype : ReferenceType
  targetOutput : Option Str := none
  targetAttribute : Option Str := none
deriving DecidableEq, Repr

/-- The final guard of `_extract_references`: a candidate is appended
only if its target address is in the valid-address set. -/
def emitIfValid (validAddresses : List Str) (r : Ref) : Option Ref :=
  if r.toAddress ∈ validAddresses then some r else none

/-- Pattern 1 processing: `\bvar\.(I)` → `variable_reference`. -/
def varMatchRef (cur : Str) (valid : List Str) (g : List Str) : Option Ref :=
  match g with
  | [n] => emitIfValid valid
      { fromAddress := cur, toAddress := "var.".toList ++ n, rtype := .VARIABLE_REFERENCE }
  | _ => none

/-- Pattern 2 processing: `\bmodule\.(I)\.(I)` → `module_dependency`
targeting `module.<name>`, with the output name captured. -/
def modMatchRef (cur : Str) (valid : List Str) (g : List Str) : Option Ref :=
  match g with
  | [n, o] => emitIfValid valid
      { fromAddress := cur, toAddress := "module.".toList ++ n, rtype := .MODULE_DEPENDENCY,
        targetOutput := some o }
  | _ => none

/-- Pattern 3 processing: `\bdata\.(I)\.(I)\.(I)` →
`datasource_dependency` targeting `data.<type>.<name>`. -/
def dataMatchRef (cur : Str) (valid : List Str) (g : List Str) : Option Ref :=
  match g with
  | [t, n, a] => emitIfValid valid
      { fromAddress := cur, toAddress := "data.".toList ++ t ++ ".".toList ++ n,
        rtype := .DATASOURCE_DEPENDENCY, targetAttribute := some a }
  | _ => none

/-- Pattern 4 processing: `\blocal\.(I)` → `local_reference`. -/
def localMatchRef (cur : Str) (valid : List Str) (g : List Str) : Option Ref :=
  match g with
  | [n] => emitIfValid valid
      { fromAddress := cur, toAddress := "local.".toList ++ n, rtype := .LOCAL_REFERENCE }
  | _ => none

/-- Python `value.startswith(prefix)`. -/
def strStartsWith : Str → Str → Bool
| [], _ => true
| _ :: _, [] => false
| p :: ps, c :: cs => if c = p then strStartsWith ps cs else false

/-- Pattern 5 processing: `\b(I)\.(I)\.(I)` → `resource_to_resource`
targeting `<a>.<b>`, only when the whole string value does not start
with `provider.` and the target is not the current block's own
address. -/
def resMatchRef (value : Str) (cur : Str) (valid : List Str) (g : List Str) : Option Ref :=
  match g with
  | [a, b, c] =>
    if strStartsWith "provider.".toList value = false ∧ a ++ '.' :: b ≠ cur then
      emitIfValid valid
        { fromAddress := cur, toAddress := a ++ '.' :: b, rtype := .RESOURCE_TO_RESOURCE,
          targetAttribute := some c }
    else none
  | _ => none

/-- String-leaf case of `_extract_references`: the five patterns are
tried in the source's fixed order, each scanning the whole string, and
the per-match processing above is applied to every match. -/
def extractFromString (value : Str) (cur : Str) (valid : List Str) : List Ref :=
  (scan "var.".toList 1 value).filterMap (varMatchRef cur valid)
    ++ (scan "module.".toList 2 value).filterMap (modMatchRef cur valid)
    ++ (scan "data.".toList 3 value).filterMap (dataMatchRef cur valid)
    ++ (scan "local.".toList 1 value).filterMap (localMatchRef cur valid)
    ++ (scan [] 3 value).filterMap (resMatchRef value cur valid)

-- `CodeService._extract_references`: recursively walk the value tree
-- (dict values, list items, string leaves).
mutual
def extractReferences (v : HValue) (cur : Str) (valid : List Str) : List Ref :=
  match v with
  | .str s => extractFromString s cur valid
  | .other => []
  | .dict d => extractReferencesDict d cur valid
  | .arr l => extractReferencesList l cur valid
def extractReferencesDict (d : HDict) (cur : Str) (valid : List Str) : List Ref :=
  match d with
  | .nil => []
  | .cons _ v rest => extractReferences v cur valid ++ extractReferencesDict rest cur valid
def extractReferencesList (l : HList) (cur : Str) (valid : List Str) : List Ref :=
  match l with
  | .nil => []
  | .cons v rest => extractReferences v cur valid ++ extractReferencesList rest cur valid
end

/-- A parsed block as assembled by the `_process_*_blocks` helpers: the
keys of the Python dict that the analysis functions read (`address`,
`type`, `name`, `config`; the `_metadata` sub-dict is never read by the
address resolver or the dependency analysis and is omitted).  A missing
key is `none`; `Option.getD` models `dict.get(key, default)`. -/
structure Block where
  address : Option Str := none
  btype : Option Str := none
  name : Option Str := none
  config : HValue := .dict .nil

/-- An element of a block list: `_analyze_dependencies` and
`_build_block_address_set` skip any element that is not a dict. -/
inductive Entry where
| blk (b : Block) : Entry
| nonDict : Entry

/-- A parsed snapshot: the combined configuration mapping block-type
keys to their block lists, as fed to `_analyze_dependencies`. -/
abbrev ParsedContent := List (Str × List Entry)

/-- The addresses contributed by one entry in
`CodeService._build_block_address_set`: an explicit `address` key wins;
otherwise the kind-specific fallback rule applies, each guarded against
its fully-degenerate sentinel; a locals block contributes `local.<key>`
for every key of its config dict. -/
def entryAddresses (blockType : Str) (e : Entry) : List Str :=
  match e with
  | .nonDict => []
  | .blk b =>
    match b.address with
    | some a => [a]
    | none =>
      if blockType = "resource".toList then
        if b.btype.getD [] ++ '.' :: b.name.getD [] ≠ ".".toList
        then [b.btype.getD [] ++ '.' :: b.name.getD []] else []
      else if blockType = "module".toList then
        if "module.".toList ++ b.name.getD [] ≠ "module.".toList
        then ["module.".toList ++ b.name.getD []] else []
      else if blockType = "data".toList then
        if "data.".toList ++ b.btype.getD [] ++ '.' :: b.name.getD [] ≠ "data..".toList
        then ["data.".toList ++ b.btype.getD [] ++ '.' :: b.name.getD []] else []
      else if blockType = "output".toList then
        if "output.".toList ++ b.name.getD [] ≠ "output.".toList
        then ["output.".toList ++ b.name.getD []] else []
      else if blockType = "variable".toList then
        if "var.".toList ++ b.name.getD [] ≠ "var.".toList
        then ["var.".toList ++ b.name.getD []] else []
      else if blockType = "locals".toList then
        match b.config with
        | .dict kvs => kvs.keys.map (fun k => "local.".toList ++ k)
        | _ => []
      else []

/-- `CodeService._build_block_address_set`: all valid block addresses of
a snapshot (membership in this list models membership in the Python
set); block-type keys starting with `_` are metadata and skipped. -/
def buildBlockAddressSet (pc : ParsedContent) : List Str :=
  pc.flatMap (fun p =>
    if strStartsWith "_".toList p.1 then []
    else p.2.flatMap (entryAddresses p.1))

/-- Python truthiness of an optional string (`if not block_address`). -/
def pyTruthy : Option Str → Bool
| none => false
| some s => s ≠ []

/-- Shared tail of `_analyze_dependencies`'s per-block loop: skip the
block if the resolved address is falsy or one of the degenerate
sentinels, otherwise extract references from its config. -/
def analyzeWithAddress (addr : Str) (b : Block) (valid : List Str) : List Ref :=
  if addr = [] ∨ addr = ".".toList ∨ addr = "module.".toList ∨ addr = "data..".toList
      ∨ addr = "output.".toList ∨ addr = "var.".toList then []
  else extractReferences b.config addr valid

/-- Per-local extraction for a locals block without an explicit
address: each key gets its own `local.<key>` source address. -/
def localsEntryRefs (d : HDict) (valid : List Str) : List Ref :=
  match d with
  | .nil => []
  | .cons k v rest =>
    extractReferences v ("local.".toList ++ k) valid ++ localsEntryRefs rest valid

/-- The references contributed by one entry of the snapshot in
`CodeService._analyze_dependencies`: non-dict entries are skipped, a
truthy explicit `address` is used as-is, otherwise the kind-specific
address is generated (locals are processed per key; unknown kinds are
skipped). -/
def entryReferences (blockType : Str) (e : Entry) (valid : List Str) : List Ref :=
  match e with
  | .nonDict => []
  | .blk b =>
    if pyTruthy b.address then analyzeWithAddress (b.address.getD []) b valid
    else if blockType = "resource".toList then
      analyzeWithAddress (b.btype.getD [] ++ '.' :: b.name.getD []) b valid
    else if blockType = "module".toList then
      analyzeWithAddress ("module.".toList ++ b.name.getD []) b valid
    else if blockType = "data".toList then
      analyzeWithAddress ("data.".toList ++ b.btype.getD [] ++ '.' :: b.name.getD []) b valid
    else if blockType = "output".toList then
      analyzeWithAddress ("output.".toList ++ b.name.getD []) b valid
    else if blockType = "variable".toList then
      analyzeWithAddress ("var.".toList ++ b.name.getD []) b valid
    else if blockType = "locals".toList then
      match b.config with
      | .dict kvs => localsEntryRefs kvs valid
      | _ => []
    else []

/-- Deduplication by the `(from, to, type)` triple, preserving order of
first occurrence (`seen` accumulates the keys already emitted). -/
def dedupRefs : List Ref → List (Str × Str × ReferenceType) → List Ref
| [], _ => []
| r :: rest, seen =>
  if (r.fromAddress, r.toAddress, r.rtype) ∈ seen then dedupRefs rest seen
  else r :: dedupRefs rest ((r.fromAddress, r.toAddress, r.rtype) :: seen)

/-- All references of a snapshot before deduplication. -/
def allReferences (pc : ParsedContent) (valid : List Str) : List Ref :=
  pc.flatMap (fun p =>
    if strStartsWith "_".toList p.1 then []
    else p.2.flatMap (fun e => entryReferences p.1 e valid))

/-- `CodeService._analyze_dependencies`: build the valid-address set,
extract the references of every block against it, and deduplicate. -/
def analyzeDependencies (pc : ParsedContent) : List Ref :=
  dedupRefs (allReferences pc (buildBlockAddressSet pc)) []

/-- `CodeService._process_provider_blocks` (list-of-dicts input shape):
every provider block receives the explicit address `provider.<name>`. -/
def processProviderBlocks (blocks : List (List (Str × HValue))) : List Entry :=
  blocks.flatMap (fun blockDict =>
    blockDict.map (fun p =>
      Entry.blk { name := some p.1, address := some ("provider.".toList ++ p.1),
                  config := p.2 }))

/-! ## Git worktree lifecycle manager (`services/git_service.py`)

The repository is modelled as an explicit state: a commit DAG, the
branch refs (name → head commit id), the set of branches whose worktree
directory exists on disk, and the per-branch working-tree status.
External effects that can fail independently of this state (the
`git worktree add`/`remove` commands, `shutil.rmtree`, `delete_head`)
are modelled as boolean outcome parameters.  `Modelled from the spec:`
`repo.iter_commits("t..b")` is GitPython/git code outside this
repository; following the spec's words it is modelled as the set of
commits reachable from `b`'s head and not from `t`'s head, computed by
a saturating parent-closure (`reachableFrom`). -/

/-- A commit object: its id and its parent ids. -/
structure Commit where
  cid : Nat
  parents : List Nat
deriving DecidableEq, Repr

/-- Status of one working tree: tracked files with unstaged
modifications, untracked files, and the staged paths (the index).
Files are recorded as absolute paths. -/
structure WorkingTree where
  changed : List Str
  untracked : List Str
  staged : List Str
deriving DecidableEq, Repr

/-- The state of one project's repository and worktrees. -/
structure GitState where
  projectPath : Str
  isRepo : Bool
  commits : List Commit
  branches : List (Str × Nat)
  worktrees : List Str
  wtStates : List (Str × WorkingTree)
deriving DecidableEq, Repr

/-- `GitService.MAIN_BRANCH`. -/
def mainBranch : Str := "main".toList

/-- `GitService._generate_worktree_name`: replace `/`, `\` and spaces
with `_` (single-character replacements, so a map over characters). -/
def generateWorktreeName (branch : Str) : Str :=
  branch.map (fun c => if c = '/' ∨ c = '\\' ∨ c = ' ' then '_' else c)

/-- `GitService.get_infrastructure_path`: the primary infrastructure
directory for main, the worktree's one for any other branch. -/
def getInfrastructurePath (projectPath : Str) (branch : Str) : Str :=
  if branch = mainBranch then projectPath ++ "/infrastructure".toList
  else projectPath ++ "/.worktrees/".toList ++ generateWorktreeName branch
    ++ "/infrastructure".toList

/-- The branch names of the repository
(`[branch.name for branch in repo.branches]`). -/
def branchNames (st : GitState) : List Str := st.branches.map (fun p => p.1)

/-- Head commit of a branch, if the branch exists. -/
def branchHead (st : GitState) (branch : Str) : Option Nat :=
  match st.branches.find? (fun p => p.1 = branch) with
  | some p => some p.2
  | none => none

/-- Parents of a commit id in the DAG (absent ids have no parents). -/
def parentsOf (commits : List Commit) (c : Nat) : List Nat :=
  match commits.find? (fun k => k.cid = c) with
  | some k => k.parents
  | none => []

/-- Add an id to a set (duplicate-free list) of commit ids. -/
def insertNew (s : List Nat) (c : Nat) : List Nat :=
  if c ∈ s then s else c :: s

/-- One step of the parent closure: add every parent of every member. -/
def reachStep (commits : List Commit) (s : List Nat) : List Nat :=
  (s.flatMap (parentsOf commits)).foldl insertNew s

/-- Iterate the closure step `n` times. -/
def reachN (commits : List Commit) : Nat → List Nat → List Nat
| 0, s => s
| n + 1, s => reachN commits n (reachStep commits s)

/-- All commits reachable from `c` by parent edges.  Iterating the
closure once per commit in the DAG saturates it, since a shortest
parent-path repeats no commit. -/
def reachableFrom (commits : List Commit) (c : Nat) : List Nat :=
  reachN commits commits.length [c]

/-- Modelled from the spec: `len(list(repo.iter_commits(f"{ex}..{inc}")))`
(GitPython/git `rev-list`, not part of this repository) — "the number
of commits reachable from `inc` not reachable from `ex`". -/
def revListCount (commits : List Commit) (ex inc : Nat) : Nat :=
  ((reachableFrom commits inc).filter (fun c => c ∉ reachableFrom commits ex)).length

/-- The four human status descriptions of `check_branch_sync_status`
(the f-string renderings carry the branch name and the counts). -/
inductive StatusDesc where
| upToDate (branch target : Str)
| aheadBy (branch : Str) (ahead : Nat)
| behindBy (branch : Str) (behind : Nat)
| divergedBy (branch : Str) (ahead behind : Nat)
deriving DecidableEq, Repr

/-- Result dict of `check_branch_sync_status`. -/
inductive SyncResult where
| failure (error : Str)
| ok (isInSync : Bool) (aheadCount behindCount : Nat) (diverged : Bool)
    (statusDescription : StatusDesc)
deriving DecidableEq, Repr

/-- `GitService.check_branch_sync_status`. -/
def checkBranchSyncStatus (st : GitState) (branchName : Str) (targetBranch : Option Str) :
    SyncResult :=
  let target := targetBranch.getD mainBranch
  if st.isRepo = false then .failure ("Project is not a Git repository".toList)
  else if branchName ∉ branchNames st then
    .failure ("Branch '".toList ++ branchName ++ "' does not exist".toList)
  else if target ∉ branchNames st then
    .failure ("Target branch '".toList ++ target ++ "' does not exist".toList)
  else
    match branchHead st branchName, branchHead st target with
    | some hb, some ht =>
      let aheadCount := revListCount st.commits ht hb
      let behindCount := revListCount st.commits hb ht
      let isInSync := behindCount = 0
      let diverged := aheadCount > 0 ∧ behindCount > 0
      let status :=
        if aheadCount = 0 ∧ behindCount = 0 then StatusDesc.upToDate branchName target
        else if aheadCount > 0 ∧ behindCount = 0 then StatusDesc.aheadBy branchName aheadCount
        else if aheadCount = 0 ∧ behindCount > 0 then StatusDesc.behindBy branchName behindCount
        else StatusDesc.divergedBy branchName aheadCount behindCount
      .ok (decide isInSync) aheadCount behindCount (decide diverged) status
    | _, _ => .failure ("Error checking branch sync status".toList)

/-- Result dict of `create_branch_with_worktree`. -/
inductive CreateResult where
| failure (error : Str)
| ok (message : Str) (alreadyExists : Bool) (infrastructurePath : Str)
    (worktreePath : Option Str)
deriving DecidableEq, Repr

/-- Worktree root directory for a non-main branch. -/
def worktreePathOf (st : GitState) (branch : Str) : Str :=
  st.projectPath ++ "/.worktrees/".toList ++ generateWorktreeName branch

/-- `GitService._create_worktree_for_branch` followed by the result
assembly of `_create_worktree_for_existing_branch`; `wtOk` is the
outcome of the external `git worktree add` command. -/
def createWorktreeForExistingBranch (st : GitState) (branch : Str) (wtOk : Bool) :
    GitState × CreateResult :=
  if wtOk then
    ({ st with worktrees := branch :: st.worktrees },
      .ok ("Worktree created for existing branch '".toList ++ branch ++ "'".toList) false
        (getInfrastructurePath st.projectPath branch) (some (worktreePathOf st branch)))
  else
    (st, .failure ("Failed to create worktree for existing branch".toList))

/-- `GitService.create_branch_with_worktree`; `wtOk` is the outcome of
the external `git worktree add` command. -/
def createBranchWithWorktree (st : GitState) (branchName : Str) (wtOk : Bool) :
    GitState × CreateResult :=
  if st.isRepo = false then
    (st, .failure ("Project is not a Git repository".toList))
  else if branchName ∈ branchNames st then
    if branchName ≠ mainBranch ∧ branchName ∉ st.worktrees then
      createWorktreeForExistingBranch st branchName wtOk
    else
      (st, .ok ("Branch '".toList ++ branchName ++ "' already exists".toList) true
        (getInfrastructurePath st.projectPath branchName) none)
  else
    match branchHead st mainBranch with
    | none => (st, .failure ("Main branch not found".toList))
    | some mainHead =>
      if branchName = mainBranch then
        ({ st with branches := (branchName, mainHead) :: st.branches },
          .ok ("Branch '".toList ++ branchName ++ "' created successfully".toList) false
          (getInfrastructurePath st.projectPath branchName) none)
      else if wtOk then
        ({ st with branches := (branchName, mainHead) :: st.branches,
                   worktrees := branchName :: st.worktrees },
          .ok ("Branch '".toList ++ branchName ++ "' and worktree created successfully".toList)
            false (getInfrastructurePath st.projectPath branchName)
            (some (worktreePathOf st branchName)))
      else
        ({ st with branches :=
            ((branchName, mainHead) :: st.branches).eraseP (fun p => p.1 = branchName) },
          .failure ("Failed to create worktree".toList))

/-- Result dict of `delete_branch_with_worktree`. -/
inductive DeleteResult where
| failure (error : Str)
| ok (message : Str) (alreadyDeleted : Bool)
deriving DecidableEq, Repr

/-- The worktree-removal phase of `delete_branch_with_worktree`: if the
worktree directory exists, try `git worktree remove --force`
(`wtRemoveOk`); on failure fall back to `shutil.rmtree` (`fsRemoveOk`);
if both fail the error is only logged and the state is unchanged. -/
def deleteWorktreeStep (st : GitState) (branchName : Str) (wtRemoveOk fsRemoveOk : Bool) :
    GitState :=
  if branchName ∈ st.worktrees then
    if wtRemoveOk then { st with worktrees := st.worktrees.filter (fun b => b ≠ branchName) }
    else if fsRemoveOk then
      { st with worktrees := st.worktrees.filter (fun b => b ≠ branchName) }
    else st
  else st

/-- The branch-ref deletion of `delete_branch_with_worktree`
(`repo.delete_head(branch_name, force=True)`). -/
def deleteRefStep (st : GitState) (branchName : Str) : GitState :=
  { st with branches := st.branches.eraseP (fun p => p.1 = branchName) }

/-- `GitService.delete_branch_with_worktree`; `wtRemoveOk` is the
outcome of `git worktree remove --force`, `fsRemoveOk` of the fallback
`shutil.rmtree`, `refDeleteOk` of `repo.delete_head`.  A failed
worktree cleanup is only logged: execution continues to the branch
deletion either way. -/
def deleteBranchWithWorktree (st : GitState) (branchName : Str)
    (wtRemoveOk fsRemoveOk refDeleteOk : Bool) : GitState × DeleteResult :=
  if st.isRepo = false then
    (st, .failure ("Project is not a Git repository".toList))
  else if branchName = mainBranch then
    (st, .failure ("Cannot delete main branch".toList))
  else if branchName ∉ branchNames st then
    (st, .ok ("Branch '".toList ++ branchName ++ "' does not exist".toList) true)
  else if refDeleteOk then
    (deleteRefStep (deleteWorktreeStep st branchName wtRemoveOk fsRemoveOk) branchName,
      .ok ("Branch '".toList ++ branchName ++ "' and worktree deleted successfully".toList)
        false)
  else
    (deleteWorktreeStep st branchName wtRemoveOk fsRemoveOk,
      .failure ("Failed to delete branch".toList))

/-- Model of the pydantic `CommitResult` (the `commit_date` field is a
wall-clock timestamp and is out of scope of this model). -/
structure CommitResult where
  success : Bool
  message : Str
  commit_id : Option Nat := none
  commit_message : Option Str := none
  branch : Option Str := none
  error : Option Str := none
  no_changes : Bool := false
deriving DecidableEq, Repr

/-- `git add -A`: stage every modification and every untracked file. -/
def addAll (wt : WorkingTree) : WorkingTree :=
  { changed := [], untracked := [],
    staged := wt.staged ++ wt.changed ++ wt.untracked }

/-- `git add <path>` for one absolute path: stage that path if it is a
pending modification or an untracked file. -/
def addPath (wt : WorkingTree) (path : Str) : WorkingTree :=
  { changed := wt.changed.filter (fun f => f ≠ path),
    untracked := wt.untracked.filter (fun f => f ≠ path),
    staged := wt.staged ++ wt.changed.filter (fun f => f = path)
      ++ wt.untracked.filter (fun f => f = path) }

/-- `repo.is_dirty()`: staged or unstaged differences exist. -/
def isDirty (wt : WorkingTree) : Bool :=
  decide (wt.staged ≠ [] ∨ wt.changed ≠ [])

/-- The working tree of a branch's checkout (clean if untracked). -/
def wtOf (st : GitState) (branch : Str) : WorkingTree :=
  match st.wtStates.find? (fun p => p.1 = branch) with
  | some p => p.2
  | none => ⟨[], [], []⟩

/-- Replace the working tree recorded for a branch. -/
def setWt (st : GitState) (branch : Str) (wt : WorkingTree) : GitState :=
  { st with wtStates := (branch, wt) :: st.wtStates.filter (fun p => p.1 ≠ branch) }

/-- A fresh commit id. -/
def nextCommitId (st : GitState) : Nat :=
  st.commits.foldl (fun m c => max m (c.cid + 1)) 0

/-- The staging phase of `commit_changes`: a nonempty file list stages
each listed file, resolved to an absolute path under the branch's
infrastructure root; `None` or an empty list stages all changes
(`git add -A`), because the source guards on
`files is not None and len(files) > 0`. -/
def commitStage (st : GitState) (branch : Str) (files : Option (List Str)) : WorkingTree :=
  match files with
  | some fs =>
    if fs.length > 0 then
      (fs.map (fun f => getInfrastructurePath st.projectPath branch ++ "/".toList ++ f)).foldl
        addPath (wtOf st branch)
    else addAll (wtOf st branch)
  | none => addAll (wtOf st branch)

/-- The commit phase of `commit_changes`: append a new commit whose
parent is the branch's current head and advance the branch ref. -/
def commitAdvance (st : GitState) (branch : Str) : GitState :=
  { st with
    commits := st.commits ++ [{ cid := nextCommitId st,
                                parents := match branchHead st branch with
                                           | some p => [p]
                                           | none => [] }],
    branches := st.branches.map
      (fun p => if p.1 = branch then (p.1, nextCommitId st) else p) }

/-- `GitService.commit_changes`: stage either the given file list (each
resolved to an absolute path under the branch's infrastructure root) or
all changes, then commit only if the tree is dirty or has untracked
files; otherwise report success with `no_changes=True` and no commit
id. -/
def commitChanges (st : GitState) (branch : Str) (message : Str)
    (files : Option (List Str)) : GitState × CommitResult :=
  if st.isRepo = false then
    (st, { success := false, message := "Repository not found".toList,
           error := some ("Project is not a Git repository".toList) })
  else if branch ≠ mainBranch ∧ branch ∉ st.worktrees then
    (st, { success := false, message := "Worktree not found".toList,
           error := some ("Worktree not found for branch: ".toList ++ branch) })
  else if isDirty (commitStage st branch files) = false
      ∧ (commitStage st branch files).untracked = [] then
    (setWt st branch (commitStage st branch files),
      { success := true, message := "No changes to commit".toList, commit_id := none,
        branch := some branch, no_changes := true })
  else
    (setWt (commitAdvance st branch) branch { commitStage st branch files with staged := [] },
      { success := true, message := "Changes committed successfully".toList,
        commit_id := some (nextCommitId st), commit_message := some message,
        branch := some branch, no_changes := false })

/-! ## Concrete snapshots and states used by witnesses and counterexamples -/

/-- A snapshot with one resource whose `ami` attribute references a
declared variable. -/
def pcVarSnapshot : ParsedContent :=
  [("resource".toList,
    [Entry.blk { address := some "aws_instance.web".toList,
                 config := .dict (.cons "ami".toList (.str "var.ami_id".toList) .nil) }]),
   ("variable".toList, [Entry.blk { address := some "var.ami_id".toList }])]

/-- A snapshot containing one provider block, processed exactly as
`_process_provider_blocks` does. -/
def pcProviderSnapshot : ParsedContent :=
  [("provider".toList, processProviderBlocks [[("aws".toList, HValue.other)]])]

/-- A snapshot with a resource block that has no explicit address and an
empty resource type (the `type` key missing, so `get('type','')` is the
empty string) but a nonempty name. -/
def pcEmptyTypeSnapshot : ParsedContent :=
  [("resource".toList, [Entry.blk { name := some "web".toList }])]

/-- A snapshot where a resource's attribute is a module-output string
and the referenced module exists. -/
def pcModuleRefSnapshot : ParsedContent :=
  [("resource".toList,
    [Entry.blk { address := some "aws_instance.web".toList,
                 config := .dict (.cons "subnet".toList
                   (.str "module.vpc.subnet_id".toList) .nil) }]),
   ("module".toList, [Entry.blk { address := some "module.vpc".toList }])]

/-- The P6 scenario: a common base commit 0; branch `A` has 2 unique
commits (1, 2) and branch `B` has 3 unique commits (3, 4, 5) since
divergence. -/
def stDiverged : GitState :=
  { projectPath := "proj".toList, isRepo := true,
    commits := [⟨0, []⟩, ⟨1, [0]⟩, ⟨2, [1]⟩, ⟨3, [0]⟩, ⟨4, [3]⟩, ⟨5, [4]⟩],
    branches := [("A".toList, 2), ("B".toList, 5)],
    worktrees := [], wtStates := [] }

/-- A repository with main and one session branch whose worktree is
clean. -/
def stClean : GitState :=
  { projectPath := "proj".toList, isRepo := true,
    commits := [⟨0, []⟩],
    branches := [("main".toList, 0), ("user/default/1".toList, 0)],
    worktrees := ["user/default/1".toList],
    wtStates := [] }

/-- Same repository with one untracked file and one modified file in
the session worktree. -/
def stDirty : GitState :=
  { stClean with wtStates := [("user/default/1".toList,
      { changed := ["proj/.worktrees/user_default_1/infrastructure/vars.tf".toList],
        untracked := ["proj/.worktrees/user_default_1/infrastructure/main.tf".toList],
        staged := [] })] }

/-- A repository where the branch `user/default/3` has no worktree
directory but a recorded working-tree entry with one staged path. -/
def stStaged : GitState :=
  { stClean with wtStates := [("user/default/3".toList,
      { changed := [], untracked := [], staged := ["proj/x.tf".toList] })] }

/-! ## Theorems -/

theorem dedupRefs_subset : ∀ (l : List Ref) (seen : List (Str × Str × ReferenceType)) (r : Ref),
    r ∈ dedupRefs l seen → r ∈ l
| [], _, _, h => absurd h (by simp [dedupRefs])
| x :: rest, seen, r, h => by
    simp only [dedupRefs] at h
    split at h
    · exact List.mem_cons_of_mem _ (dedupRefs_subset rest seen r h)
    · rcases List.mem_cons.mp h with h1 | h2
      · exact h1 ▸ List.mem_cons_self _ _
      · exact List.mem_cons_of_mem _ (dedupRefs_subset rest _ r h2)

theorem emitIfValid_mem (valid : List Str) (r r' : Ref) (h : emitIfValid valid r = some r') :
    r'.toAddress ∈ valid := by
  unfold emitIfValid at h
  split at h
  · injection h with h'
    subst h'
    assumption
  · exact absurd h (by simp)

theorem varMatchRef_valid (cur : Str) (valid : List Str) (g : List Str) (r : Ref)
    (h : varMatchRef cur valid g = some r) : r.toAddress ∈ valid := by
  match g with
  | [n] => exact emitIfValid_mem _ _ _ h
  | [] | [_, _] | _ :: _ :: _ :: _ => simp [varMatchRef] at h

theorem modMatchRef_valid (cur : Str) (valid : List Str) (g : List Str) (r : Ref)
    (h : modMatchRef cur valid g = some r) : r.toAddress ∈ valid := by
  match g with
  | [n, o] => exact emitIfValid_mem _ _ _ h
  | [] | [_] | _ :: _ :: _ :: _ => simp [modMatchRef] at h

theorem dataMatchRef_valid (cur : Str) (valid : List Str) (g : List Str) (r : Ref)
    (h : dataMatchRef cur valid g = some r) : r.toAddress ∈ valid := by
  match g with
  | [t, n, a] => exact emitIfValid_mem _ _ _ h
  | [] | [_] | [_, _] | _ :: _ :: _ :: _ :: _ => simp [dataMatchRef] at h

theorem localMatchRef_valid (cur : Str) (valid : List Str) (g : List Str) (r : Ref)
    (h : localMatchRef cur valid g = some r) : r.toAddress ∈ valid := by
  match g with
  | [n] => exact emitIfValid_mem _ _ _ h
  | [] | [_, _] | _ :: _ :: _ :: _ => simp [localMatchRef] at h

theorem resMatchRef_valid (value cur : Str) (valid : List Str) (g : List Str) (r : Ref)
    (h : resMatchRef value cur valid g = some r) : r.toAddress ∈ valid := by
  match g with
  | [a, b, c] =>
    simp only [resMatchRef] at h
    split at h
    · exact emitIfValid_mem _ _ _ h
    · exact absurd h (by simp)
  | [] | [_] | [_, _] | _ :: _ :: _ :: _ :: _ => simp [resMatchRef] at h

theorem extractFromString_valid (s cur : Str) (valid : List Str) (r : Ref)
    (h : r ∈ extractFromString s cur valid) : r.toAddress ∈ valid := by
  unfold extractFromString at h
  simp only [List.mem_append, List.mem_filterMap] at h
  rcases h with ((((⟨g, _, hg⟩ | ⟨g, _, hg⟩) | ⟨g, _, hg⟩) | ⟨g, _, hg⟩) | ⟨g, _, hg⟩)
  · exact varMatchRef_valid _ _ _ _ hg
  · exact modMatchRef_valid _ _ _ _ hg
  · exact dataMatchRef_valid _ _ _ _ hg
  · exact localMatchRef_valid _ _ _ _ hg
  · exact resMatchRef_valid _ _ _ _ _ hg

mutual
theorem extractReferences_valid : ∀ (v : HValue) (cur : Str) (valid : List Str) (r : Ref),
    r ∈ extractReferences v cur valid → r.toAddress ∈ valid
| .str s, cur, valid, r, h =>
    extractFromString_valid s cur valid r (by simpa [extractReferences] using h)
| .other, _, _, _, h => absurd h (by simp [extractReferences])
| .dict d, cur, valid, r, h =>
    extractReferencesDict_valid d cur valid r (by simpa [extractReferences] using h)
| .arr l, cur, valid, r, h =>
    extractReferencesList_valid l cur valid r (by simpa [extractReferences] using h)
theorem extractReferencesDict_valid : ∀ (d : HDict) (cur : Str) (valid : List Str) (r : Ref),
    r ∈ extractReferencesDict d cur valid → r.toAddress ∈ valid
| .nil, _, _, _, h => absurd h (by simp [extractReferencesDict])
| .cons _ v rest, cur, valid, r, h => by
    simp only [extractReferencesDict, List.mem_append] at h
    rcases h with h1 | h2
    · exact extractReferences_valid v cur valid r h1
    · exact extractReferencesDict_valid rest cur valid r h2
theorem extractReferencesList_valid : ∀ (l : HList) (cur : Str) (valid : List Str) (r : Ref),
    r ∈ extractReferencesList l cur valid → r.toAddress ∈ valid
| .nil, _, _, _, h => absurd h (by simp [extractReferencesList])
| .cons v rest, cur, valid, r, h => by
    simp only [extractReferencesList, List.mem_append] at h
    rcases h with h1 | h2
    · exact extractReferences_valid v cur valid r h1
    · exact extractReferencesList_valid rest cur valid r h2
end

theorem analyzeWithAddress_valid (addr : Str) (b : Block) (valid : List Str) (r : Ref)
    (h : r ∈ analyzeWithAddress addr b valid) : r.toAddress ∈ valid := by
  unfold analyzeWithAddress at h
  split at h
  · simp at h
  · exact extractReferences_valid _ _ _ _ h

theorem localsEntryRefs_valid : ∀ (d : HDict) (valid : List Str) (r : Ref),
    r ∈ localsEntryRefs d valid → r.toAddress ∈ valid
| .nil, _, _, h => absurd h (by simp [localsEntryRefs])
| .cons k v rest, valid, r, h => by
    simp only [localsEntryRefs, List.mem_append] at h
    rcases h with h1 | h2
    · exact extractReferences_valid _ _ _ _ h1
    · exact localsEntryRefs_valid rest valid r h2

theorem entryReferences_valid (bt : Str) (e : Entry) (valid : List Str) (r : Ref)
    (h : r ∈ entryReferences bt e valid) : r.toAddress ∈ valid := by
  cases e with
  | nonDict => simp [entryReferences] at h
  | blk b =>
    simp only [entryReferences] at h
    split at h
    · exact analyzeWithAddress_valid _ _ _ _ h
    · split at h
      · exact analyzeWithAddress_valid _ _ _ _ h
      · split at h
        · exact analyzeWithAddress_valid _ _ _ _ h
        · split at h
          · exact analyzeWithAddress_valid _ _ _ _ h
          · split at h
            · exact analyzeWithAddress_valid _ _ _ _ h
            · split at h
              · exact analyzeWithAddress_valid _ _ _ _ h
              · split at h
                · split at h
                  · exact localsEntryRefs_valid _ _ _ h
                  · simp at h
                · simp at h

theorem allReferences_valid (pc : ParsedContent) (valid : List Str) (r : Ref)
    (h : r ∈ allReferences pc valid) : r.toAddress ∈ valid := by
  unfold allReferences at h
  simp only [List.mem_flatMap] at h
  obtain ⟨p, _, hp⟩ := h
  split at hp
  · simp at hp
  · simp only [List.mem_flatMap] at hp
    obtain ⟨e, _, he⟩ := hp
    exact entryReferences_valid _ _ _ _ he

/-- C1: every edge produced by the dependency analysis has a
`to_address` that is a member of the address set computed by
`_build_block_address_set` over the same snapshot; a candidate
reference whose target is not in the valid-address set is silently
discarded and never appears as an edge. -/
theorem claim_C1_edge_validity (pc : ParsedContent) (r : Ref)
    (h : r ∈ analyzeDependencies pc) : r.toAddress ∈ buildBlockAddressSet pc := by
  unfold analyzeDependencies at h
  exact allReferences_valid _ _ _ (dedupRefs_subset _ _ _ h)

/-- Witness for C1 at a concrete snapshot with one variable edge. -/
theorem claim_C1_witness :
    ({ fromAddress := "aws_instance.web".toList, toAddress := "var.ami_id".toList,
       rtype := .VARIABLE_REFERENCE } : Ref).toAddress ∈ buildBlockAddressSet pcVarSnapshot :=
  claim_C1_edge_validity pcVarSnapshot _ (by decide)

/-- C2 counterexample: a snapshot containing one provider block.  The
claim says the Block Address Resolver excludes every address derived
from a provider block, but `_process_provider_blocks` stores the
explicit address `provider.<name>` in the block, and
`_build_block_address_set` adds any explicit `address` key to the set —
so `provider.aws` is in the address set. -/
theorem claim_C2_counterexample :
    "provider.aws".toList ∈ buildBlockAddressSet pcProviderSnapshot := by decide

/-- C2 as amended: the address set is not provider-free; every provider
block of the snapshot contributes its explicit `provider.<name>`
address to the set (provider references are only limited later, by the
extractor's whole-string `startswith('provider.')` heuristic on the
generic pattern). -/
theorem mem_buildBlockAddressSet_of (pc : ParsedContent) (bt : Str) (entries : List Entry)
    (a : Str) (hpc : (bt, entries) ∈ pc) (hpref : strStartsWith "_".toList bt = false)
    (ha : a ∈ entries.flatMap (entryAddresses bt)) : a ∈ buildBlockAddressSet pc := by
  unfold buildBlockAddressSet
  rw [List.mem_flatMap]
  refine ⟨(bt, entries), hpc, ?_⟩
  show a ∈ (if strStartsWith "_".toList bt then [] else entries.flatMap (entryAddresses bt))
  simp only [hpref, Bool.false_eq_true, if_false]
  exact ha

theorem claim_C2_amended (pc : ParsedContent) (bs : List (List (Str × HValue)))
    (bd : List (Str × HValue)) (name : Str) (cfg : HValue)
    (hpc : ("provider".toList, processProviderBlocks bs) ∈ pc)
    (hbd : bd ∈ bs) (hnc : (name, cfg) ∈ bd) :
    "provider.".toList ++ name ∈ buildBlockAddressSet pc := by
  refine mem_buildBlockAddressSet_of pc "provider".toList (processProviderBlocks bs) _ hpc
    (by decide) ?_
  rw [List.mem_flatMap]
  refine ⟨Entry.blk { name := some name, address := some ("provider.".toList ++ name),
                      config := cfg }, ?_, by simp [entryAddresses]⟩
  unfold processProviderBlocks
  rw [List.mem_flatMap]
  exact ⟨bd, hbd, List.mem_map.mpr ⟨(name, cfg), hnc, rfl⟩⟩

/-- Witness for the amended C2 at the concrete provider snapshot. -/
theorem claim_C2_witness :
    "provider.".toList ++ "aws".toList ∈ buildBlockAddressSet pcProviderSnapshot :=
  claim_C2_amended pcProviderSnapshot [[("aws".toList, HValue.other)]]
    [("aws".toList, HValue.other)] "aws".toList HValue.other
    (List.mem_singleton.mpr rfl) (List.mem_singleton.mpr rfl) (List.mem_singleton.mpr rfl)

theorem append_dot_eq_dot (t n : Str) : t ++ '.' :: n = ['.'] ↔ t = [] ∧ n = [] := by
  cases t with
  | nil => simp
  | cons c cs =>
    constructor
    · intro h
      have hlen := congrArg List.length h
      simp at hlen
    · rintro ⟨h, _⟩
      exact absurd h (by simp)

theorem guard_eq_nil (addr sentinel : Str) :
    (if addr ≠ sentinel then [addr] else []) = [] ↔ addr = sentinel := by
  by_cases hc : addr = sentinel
  · simp [hc]
  · simp [hc]

/-- C6 counterexample: a resource block without an explicit address
whose type component is empty and whose name is `web`.  The claim says
such a degenerate address is excluded, but the code only filters the
fully-degenerate sentinel `"."`, so `.web` stays in the address set. -/
theorem claim_C6_counterexample :
    ".web".toList ∈ buildBlockAddressSet pcEmptyTypeSnapshot := by decide

/-- C6 as amended: the kind-specific fallback rules exclude a computed
address only when it equals the fully-empty sentinel of its kind — for
resources exactly when BOTH the type and the name are empty (`.`), for
data blocks exactly when both are empty (`data..`), and for
module/output/variable blocks exactly when the name is empty; an
address with just one empty component (such as `.web`) is kept. -/
theorem claim_C6_amended (b : Block) (h : b.address = none) :
    (entryAddresses "resource".toList (.blk b) = []
        ↔ b.btype.getD [] = [] ∧ b.name.getD [] = [])
    ∧ (entryAddresses "module".toList (.blk b) = [] ↔ b.name.getD [] = [])
    ∧ (entryAddresses "data".toList (.blk b) = []
        ↔ b.btype.getD [] = [] ∧ b.name.getD [] = [])
    ∧ (entryAddresses "output".toList (.blk b) = [] ↔ b.name.getD [] = [])
    ∧ (entryAddresses "variable".toList (.blk b) = [] ↔ b.name.getD [] = []) := by
  refine ⟨?_, ?_, ?_, ?_, ?_⟩
  · have e1 : entryAddresses "resource".toList (.blk b)
        = if b.btype.getD [] ++ '.' :: b.name.getD [] ≠ ".".toList
          then [b.btype.getD [] ++ '.' :: b.name.getD []] else [] := by
      simp only [entryAddresses, h]
      rw [if_pos trivial]
    rw [e1, guard_eq_nil]
    exact append_dot_eq_dot _ _
  · have e1 : entryAddresses "module".toList (.blk b)
        = if "module.".toList ++ b.name.getD [] ≠ "module.".toList
          then ["module.".toList ++ b.name.getD []] else [] := by
      simp only [entryAddresses, h]
      rw [if_neg (show ¬("module".toList = "resource".toList) by decide), if_pos trivial]
    rw [e1, guard_eq_nil]
    constructor
    · intro hx
      exact List.append_cancel_left (hx.trans (List.append_nil "module.".toList).symm)
    · intro h1
      rw [h1, List.append_nil]
  · have e1 : entryAddresses "data".toList (.blk b)
        = if "data.".toList ++ b.btype.getD [] ++ '.' :: b.name.getD [] ≠ "data..".toList
          then ["data.".toList ++ b.btype.getD [] ++ '.' :: b.name.getD []] else [] := by
      simp only [entryAddresses, h]
      rw [if_neg (show ¬("data".toList = "resource".toList) by decide),
        if_neg (show ¬("data".toList = "module".toList) by decide), if_pos trivial]
    rw [e1, guard_eq_nil]
    have hd : ("data..".toList : Str) = "data.".toList ++ ['.'] := by decide
    rw [List.append_assoc, hd]
    constructor
    · intro hx
      exact (append_dot_eq_dot _ _).mp (List.append_cancel_left hx)
    · rintro ⟨h1, h2⟩
      rw [h1, h2]
      rfl
  · have e1 : entryAddresses "output".toList (.blk b)
        = if "output.".toList ++ b.name.getD [] ≠ "output.".toList
          then ["output.".toList ++ b.name.getD []] else [] := by
      simp only [entryAddresses, h]
      rw [if_neg (show ¬("output".toList = "resource".toList) by decide),
        if_neg (show ¬("output".toList = "module".toList) by decide),
        if_neg (show ¬("output".toList = "data".toList) by decide), if_pos trivial]
    rw [e1, guard_eq_nil]
    constructor
    · intro hx
      exact List.append_cancel_left (hx.trans (List.append_nil "output.".toList).symm)
    · intro h1
      rw [h1, List.append_nil]
  · have e1 : entryAddresses "variable".toList (.blk b)
        = if "var.".toList ++ b.name.getD [] ≠ "var.".toList
          then ["var.".toList ++ b.name.getD []] else [] := by
      simp only [entryAddresses, h]
      rw [if_neg (show ¬("variable".toList = "resource".toList) by decide),
        if_neg (show ¬("variable".toList = "module".toList) by decide),
        if_neg (show ¬("variable".toList = "data".toList) by decide),
        if_neg (show ¬("variable".toList = "output".toList) by decide), if_pos trivial]
    rw [e1, guard_eq_nil]
    constructor
    · intro hx
      exact List.append_cancel_left (hx.trans (List.append_nil "var.".toList).symm)
    · intro h1
      rw [h1, List.append_nil]

/-- Witness for the amended C6: a module block with an empty name is
excluded from the address set. -/
theorem claim_C6_witness :
    entryAddresses "module".toList (.blk { }) = [] :=
  (claim_C6_amended { } rfl).2.1.mpr rfl

/-! ### Scanner lemmas for C3: behaviour of the pattern matcher on a
string that is exactly a module-output reference. -/

theorem headNotWord_dot (x : Str) : headNotWord ('.' :: x) = true := by
  simp [headNotWord]
  decide

theorem takeWhile_word_append : ∀ (t rest : Str), t.all wordChar = true →
    headNotWord rest = true →
    (t ++ rest).takeWhile wordChar = t ∧ (t ++ rest).dropWhile wordChar = rest
| [], rest, _, hr => by
    cases rest with
    | nil => simp
    | cons c cs =>
      have hc : wordChar c = false := by simpa [headNotWord] using hr
      simp [List.takeWhile_cons, List.dropWhile_cons, hc]
| c :: cs, rest, ht, hr => by
    rw [List.all_cons, Bool.and_eq_true] at ht
    have ih := takeWhile_word_append cs rest ht.2 hr
    simp [List.takeWhile_cons, List.dropWhile_cons, ht.1, ih.1, ih.2]

theorem munchIdent_exact (n rest : Str) (hn : isIdentChars n = true)
    (hr : headNotWord rest = true) : munchIdent (n ++ rest) = some (n, rest) := by
  cases n with
  | nil => simp [isIdentChars] at hn
  | cons c t =>
    rw [isIdentChars, Bool.and_eq_true] at hn
    have hw := takeWhile_word_append t rest hn.2 hr
    simp [munchIdent, hn.1, hw.1, hw.2]

theorem matchIdents_one (n rest : Str) (hn : isIdentChars n = true)
    (hr : headNotWord rest = true) : matchIdents 1 (n ++ rest) = some ([n], rest) := by
  simp [matchIdents, munchIdent_exact n rest hn hr]

theorem matchIdents_two (n o rest : Str) (hn : isIdentChars n = true)
    (ho : isIdentChars o = true) (hr : headNotWord rest = true) :
    matchIdents 2 (n ++ '.' :: (o ++ rest)) = some ([n, o], rest) := by
  have h1 := munchIdent_exact n ('.' :: (o ++ rest)) hn (headNotWord_dot _)
  simp [matchIdents, h1, munchIdent_exact o rest ho hr]

theorem matchIdents_three (a b c rest : Str) (ha : isIdentChars a = true)
    (hb : isIdentChars b = true) (hc : isIdentChars c = true)
    (hr : headNotWord rest = true) :
    matchIdents 3 (a ++ '.' :: (b ++ '.' :: (c ++ rest))) = some ([a, b, c], rest) := by
  have h1 := munchIdent_exact a ('.' :: (b ++ '.' :: (c ++ rest))) ha (headNotWord_dot _)
  simp [matchIdents, h1, munchIdent_exact b ('.' :: (c ++ rest)) hb (headNotWord_dot _),
    munchIdent_exact c rest hc hr]

theorem matchLiteral_append : ∀ (p rest : Str), matchLiteral p (p ++ rest) = some rest
| [], _ => rfl
| c :: cs, rest => by simp [matchLiteral, matchLiteral_append cs rest]

theorem matchPat_module (n o : Str) (hn : isIdentChars n = true)
    (ho : isIdentChars o = true) :
    matchPat "module.".toList 2 ("module.".toList ++ (n ++ '.' :: o))
      = some ([n, o], ("module.".toList ++ (n ++ '.' :: o)).length) := by
  have h2 : matchIdents 2 (n ++ '.' :: o) = some ([n, o], []) := by
    have := matchIdents_two n o [] hn ho rfl
    rwa [List.append_nil] at this
  unfold matchPat
  simp [matchLiteral, h2]

theorem matchPat_generic (n o : Str) (hn : isIdentChars n = true)
    (ho : isIdentChars o = true) :
    matchPat [] 3 ("module.".toList ++ (n ++ '.' :: o))
      = some (["module".toList, n, o], ("module.".toList ++ (n ++ '.' :: o)).length) := by
  have h3 : matchIdents 3 ("module.".toList ++ (n ++ '.' :: o))
      = some (["module".toList, n, o], []) := by
    have := matchIdents_three "module".toList n o [] (by decide) hn ho rfl
    rw [List.append_nil] at this
    exact this
  unfold matchPat
  rw [show ("module.".toList ++ (n ++ '.' :: o) : Str)
    = 'm' :: 'o' :: 'd' :: 'u' :: 'l' :: 'e' :: '.' :: (n ++ '.' :: o) from rfl] at h3 ⊢
  simp [matchLiteral, h3]

theorem scanAux_nil (pre : Str) (k : Nat) (fuel : Nat) (b : Bool) :
    scanAux pre k fuel [] b = [] := by
  cases fuel <;> rfl

theorem scan_single (pre : Str) (k : Nat) (c : Char) (cs : Str) (g : List Str)
    (h : matchPat pre k (c :: cs) = some (g, (c :: cs).length)) :
    scan pre k (c :: cs) = [g] := by
  show scanAux pre k (cs.length + 1) (c :: cs) false = [g]
  have e : scanAux pre k (cs.length + 1) (c :: cs) false
      = match matchPat pre k (c :: cs) with
        | some (g, n) => g :: scanAux pre k cs.length (cs.drop (n - 1)) true
        | none => scanAux pre k cs.length cs (wordChar c) := by
    simp [scanAux]
  rw [e, h]
  show g :: scanAux pre k cs.length (cs.drop cs.length) true = [g]
  rw [List.drop_length, scanAux_nil]

/-- C3 counterexample: a snapshot whose resource attribute is the
string `module.vpc.subnet_id` with `module.vpc` declared.  The claim
says the generic three-segment pattern does not additionally produce a
`resource_to_resource` edge for that text, but the analysis emits both
edges: each pattern independently scans the whole string, and the
deduplication key includes the type, so both survive. -/
theorem claim_C3_counterexample :
    ({ fromAddress := "aws_instance.web".toList, toAddress := "module.vpc".toList,
       rtype := .RESOURCE_TO_RESOURCE, targetAttribute := some "subnet_id".toList } : Ref)
      ∈ analyzeDependencies pcModuleRefSnapshot
    ∧ ({ fromAddress := "aws_instance.web".toList, toAddress := "module.vpc".toList,
         rtype := .MODULE_DEPENDENCY, targetOutput := some "subnet_id".toList } : Ref)
      ∈ analyzeDependencies pcModuleRefSnapshot := by
  constructor <;> decide

/-- C3 as amended: for a string leaf that is exactly a module output
reference `module.<name>.<output>` (nonempty identifiers) whose target
`module.<name>` is in the valid-address set and differs from the
current block's address, extraction emits the `module_dependency` edge
targeting `module.<name>` with the output captured — and the generic
three-segment pattern additionally emits a `resource_to_resource` edge
to the same target: the patterns are applied independently, each
scanning the whole string, so the specific pattern does not preempt the
generic one (it only precedes it in output order). -/
theorem claim_C3_amended (n o cur : Str) (valid : List Str)
    (hn : isIdentChars n = true) (ho : isIdentChars o = true)
    (hval : "module.".toList ++ n ∈ valid)
    (hne : "module.".toList ++ n ≠ cur) :
    ({ fromAddress := cur, toAddress := "module.".toList ++ n,
       rtype := .MODULE_DEPENDENCY, targetOutput := some o } : Ref)
      ∈ extractFromString ("module.".toList ++ (n ++ '.' :: o)) cur valid
    ∧ ({ fromAddress := cur, toAddress := "module.".toList ++ n,
         rtype := .RESOURCE_TO_RESOURCE, targetAttribute := some o } : Ref)
      ∈ extractFromString ("module.".toList ++ (n ++ '.' :: o)) cur valid := by
  have hs : ("module.".toList ++ (n ++ '.' :: o))
      = 'm' :: ("odule.".toList ++ (n ++ '.' :: o)) := rfl
  have hmod : scan "module.".toList 2 ("module.".toList ++ (n ++ '.' :: o)) = [[n, o]] := by
    rw [hs]
    exact scan_single _ _ _ _ _ (matchPat_module n o hn ho)
  have hgen : scan [] 3 ("module.".toList ++ (n ++ '.' :: o))
      = [["module".toList, n, o]] := by
    rw [hs]
    exact scan_single _ _ _ _ _ (matchPat_generic n o hn ho)
  have hstart : strStartsWith "provider.".toList ("module.".toList ++ (n ++ '.' :: o))
      = false := rfl
  have hstart2 : strStartsWith "provider.".toList
      ('m' :: 'o' :: 'd' :: 'u' :: 'l' :: 'e' :: '.' :: (n ++ '.' :: o)) = false := hstart
  have hval2 : 'm' :: 'o' :: 'd' :: 'u' :: 'l' :: 'e' :: '.' :: n ∈ valid := hval
  have hne2 : ('m' :: 'o' :: 'd' :: 'u' :: 'l' :: 'e' :: '.' :: n : Str) ≠ cur := hne
  constructor
  · unfold extractFromString
    apply List.mem_append.mpr; left
    apply List.mem_append.mpr; left
    apply List.mem_append.mpr; left
    apply List.mem_append.mpr; right
    rw [hmod]
    simp [modMatchRef, emitIfValid, hval, hval2]
  · unfold extractFromString
    apply List.mem_append.mpr; right
    rw [hgen]
    have hpot : "module".toList ++ '.' :: n = "module.".toList ++ n := rfl
    simp [resMatchRef, hstart, hstart2, hpot, hne, hne2, emitIfValid, hval, hval2]
    rfl

/-- Witness for the amended C3 at `module.vpc.subnet_id`. -/
theorem claim_C3_witness :
    ({ fromAddress := "aws_instance.web".toList, toAddress := "module.vpc".toList,
       rtype := .MODULE_DEPENDENCY, targetOutput := some "subnet_id".toList } : Ref)
      ∈ extractFromString "module.vpc.subnet_id".toList "aws_instance.web".toList
          ["module.vpc".toList]
    ∧ ({ fromAddress := "aws_instance.web".toList, toAddress := "module.vpc".toList,
         rtype := .RESOURCE_TO_RESOURCE, targetAttribute := some "subnet_id".toList } : Ref)
      ∈ extractFromString "module.vpc.subnet_id".toList "aws_instance.web".toList
          ["module.vpc".toList] :=
  claim_C3_amended "vpc".toList "subnet_id".toList "aws_instance.web".toList
    ["module.vpc".toList] (by decide) (by decide) (by decide) (by decide)

/-! ### Worktree lifecycle and commit theorems -/

/-- C4: if worktree creation fails while creating a fresh non-main
branch, the just-created branch is rolled back and an error is
returned: the whole repository state (in particular the branch set)
after the failed call equals the state before it. -/
theorem claim_C4_create_rollback (st : GitState) (b : Str)
    (hrepo : st.isRepo = true) (hnb : b ∉ branchNames st) (hnm : b ≠ mainBranch) :
    (createBranchWithWorktree st b false).1 = st
    ∧ ∃ e, (createBranchWithWorktree st b false).2 = .failure e := by
  unfold createBranchWithWorktree
  rw [if_neg (by simp [hrepo])]
  rw [if_neg hnb]
  split
  · exact ⟨rfl, _, rfl⟩
  · next x mh heq =>
    rw [if_neg hnm]
    rw [if_neg (by simp)]
    constructor
    · have he : ((b, mh) :: st.branches).eraseP (fun p => p.1 = b) = st.branches := by
        rw [List.eraseP_cons_of_pos]
        simp
      simp [he]
    · exact ⟨_, rfl⟩

/-- Witness for C4: creating `user/default/2` with a failing worktree
command leaves the state untouched. -/
theorem claim_C4_witness :
    (createBranchWithWorktree stClean "user/default/2".toList false).1 = stClean
    ∧ ∃ e, (createBranchWithWorktree stClean "user/default/2".toList false).2 = .failure e :=
  claim_C4_create_rollback stClean "user/default/2".toList rfl (by decide) (by decide)

/-- C8: deleting a branch that does not exist returns success with
`already_deleted=True` and mutates nothing, for every outcome of the
worktree-removal and ref-deletion commands. -/
theorem claim_C8_idempotent_delete (st : GitState) (b : Str) (w f r : Bool)
    (hrepo : st.isRepo = true) (hnm : b ≠ mainBranch) (hnb : b ∉ branchNames st) :
    deleteBranchWithWorktree st b w f r
      = (st, .ok ("Branch '".toList ++ b ++ "' does not exist".toList) true) := by
  unfold deleteBranchWithWorktree
  rw [if_neg (by simp [hrepo])]
  rw [if_neg hnm, if_pos hnb]

/-- Witness for C8 at a concrete repository and absent branch. -/
theorem claim_C8_witness :
    deleteBranchWithWorktree stClean "user/default/9".toList false false false
      = (stClean, .ok ("Branch '".toList ++ "user/default/9".toList
          ++ "' does not exist".toList) true) :=
  claim_C8_idempotent_delete stClean "user/default/9".toList false false false
    rfl (by decide) (by decide)

/-- C10: for an existing non-main branch, the delete operation returns
success (with `already_deleted=False`) whenever the branch-ref deletion
succeeds, for every outcome of the Git-level worktree removal and of
the fallback filesystem removal: a worktree-cleanup failure is only
logged and never surfaces in the returned result. -/
theorem claim_C10_delete_ignores_cleanup_failure (st : GitState) (b : Str) (w f : Bool)
    (hrepo : st.isRepo = true) (hnm : b ≠ mainBranch) (hb : b ∈ branchNames st) :
    (deleteBranchWithWorktree st b w f true).2
      = .ok ("Branch '".toList ++ b ++ "' and worktree deleted successfully".toList) false := by
  unfold deleteBranchWithWorktree
  rw [if_neg (by simp [hrepo])]
  rw [if_neg hnm, if_neg (not_not_intro hb)]
  rfl

/-- Witness for C10: both cleanup commands fail, the result is still
success. -/
theorem claim_C10_witness :
    (deleteBranchWithWorktree stClean "user/default/1".toList false false true).2
      = .ok ("Branch '".toList ++ "user/default/1".toList
          ++ "' and worktree deleted successfully".toList) false :=
  claim_C10_delete_ignores_cleanup_failure stClean "user/default/1".toList false false
    rfl (by decide) (by decide)

theorem foldl_addPath_clean : ∀ (paths : List Str),
    paths.foldl addPath ⟨[], [], []⟩ = (⟨[], [], []⟩ : WorkingTree)
| [] => rfl
| p :: ps => by
    have h1 : addPath ⟨[], [], []⟩ p = ⟨[], [], []⟩ := rfl
    rw [List.foldl_cons, h1, foldl_addPath_clean ps]

/-- C7: committing on a branch whose checkout has no pending changes,
no untracked files and an empty index returns success with
`no_changes=True` and `commit_id=None`, and creates no new commit (for
any `files` argument). -/
theorem claim_C7_noop_commit (st : GitState) (branch message : Str) (files : Option (List Str))
    (hrepo : st.isRepo = true) (hwt : branch = mainBranch ∨ branch ∈ st.worktrees)
    (hclean : wtOf st branch = ⟨[], [], []⟩) :
    (commitChanges st branch message files).2
      = { success := true, message := "No changes to commit".toList, commit_id := none,
          branch := some branch, no_changes := true }
    ∧ (commitChanges st branch message files).1.commits = st.commits := by
  have hstage : commitStage st branch files = ⟨[], [], []⟩ := by
    cases files with
    | none =>
      simp only [commitStage]
      rw [hclean]
      rfl
    | some fs =>
      simp only [commitStage]
      rw [hclean]
      by_cases hl : fs.length > 0
      · rw [if_pos hl]
        exact foldl_addPath_clean _
      · rw [if_neg hl]
        rfl
  have hcond : ¬(branch ≠ mainBranch ∧ branch ∉ st.worktrees) := by
    rcases hwt with h | h
    · exact fun hc => hc.1 h
    · exact fun hc => hc.2 h
  unfold commitChanges
  rw [if_neg (by simp [hrepo])]
  rw [if_neg hcond]
  rw [hstage]
  rw [if_pos ⟨rfl, rfl⟩]
  exact ⟨rfl, rfl⟩

/-- Witness for C7 at a clean session worktree. -/
theorem claim_C7_witness :
    (commitChanges stClean "user/default/1".toList "msg".toList none).2
      = { success := true, message := "No changes to commit".toList, commit_id := none,
          branch := some "user/default/1".toList, no_changes := true }
    ∧ (commitChanges stClean "user/default/1".toList "msg".toList none).1.commits
      = stClean.commits :=
  claim_C7_noop_commit stClean "user/default/1".toList "msg".toList none
    rfl (Or.inr (by decide)) rfl

theorem wtOf_setWt (st : GitState) (b : Str) (wt : WorkingTree) :
    wtOf (setWt st b wt) b = wt := by
  unfold wtOf setWt
  rw [List.find?_cons_of_pos _ (by simp)]

theorem addPath_staged_sub (wt : WorkingTree) (path q : Str)
    (h : q ∈ (addPath wt path).staged) : q ∈ wt.staged ∨ q = path := by
  unfold addPath at h
  simp only [List.mem_append] at h
  rcases h with (h1 | h2) | h3
  · exact .inl h1
  · exact .inr (by simpa using (List.mem_filter.mp h2).2)
  · exact .inr (by simpa using (List.mem_filter.mp h3).2)

theorem foldl_addPath_staged : ∀ (paths : List Str) (wt : WorkingTree) (q : Str),
    q ∈ (paths.foldl addPath wt).staged → q ∈ wt.staged ∨ q ∈ paths
| [], _, _, h => .inl h
| p :: ps, wt, q, h => by
    rcases foldl_addPath_staged ps (addPath wt p) q h with h1 | h2
    · rcases addPath_staged_sub wt p q h1 with h3 | h4
      · exact .inl h3
      · exact .inr (by simp [h4])
    · exact .inr (List.mem_cons_of_mem _ h2)

/-- C9: passing `files=[]` to the commit operation behaves exactly like
`files=None` — everything is staged, not an empty set of files — and
only a nonempty file list restricts staging: every path staged by a
nonempty-list call was either already staged or is one of the listed
files resolved to an absolute path under that branch's infrastructure
root. -/
theorem claim_C9_empty_file_list (st : GitState) (b m : Str) :
    commitChanges st b m (some []) = commitChanges st b m none
    ∧ ∀ fs : List Str, fs ≠ [] →
        ∀ p ∈ (wtOf (commitChanges st b m (some fs)).1 b).staged,
          p ∈ (wtOf st b).staged
          ∨ p ∈ fs.map (fun f => getInfrastructurePath st.projectPath b ++ "/".toList ++ f) := by
  constructor
  · rfl
  · intro fs hfs p hp
    have hstage : commitStage st b (some fs)
        = (fs.map (fun f => getInfrastructurePath st.projectPath b ++ "/".toList ++ f)).foldl
            addPath (wtOf st b) := by
      simp only [commitStage]
      rw [if_pos (List.length_pos.mpr hfs)]
    unfold commitChanges at hp
    split at hp
    · exact .inl (by simpa using hp)
    · split at hp
      · exact .inl (by simpa using hp)
      · split at hp
        · rw [show ((setWt st b (commitStage st b (some fs)),
              ({ success := true, message := "No changes to commit".toList, commit_id := none,
                 branch := some b, no_changes := true } : CommitResult)).1)
            = setWt st b (commitStage st b (some fs)) from rfl, wtOf_setWt, hstage] at hp
          exact foldl_addPath_staged _ _ _ hp
        · rw [show ((setWt (commitAdvance st b) b
                { commitStage st b (some fs) with staged := [] },
              ({ success := true, message := "Changes committed successfully".toList,
                 commit_id := some (nextCommitId st), commit_message := some m,
                 branch := some b, no_changes := false } : CommitResult)).1)
            = setWt (commitAdvance st b) b { commitStage st b (some fs) with staged := [] }
            from rfl, wtOf_setWt] at hp
          simp at hp

/-- Witness for C9: a path still staged after a restricted commit call
is an old staged path or one of the listed files resolved under the
infrastructure root. -/
theorem claim_C9_witness :
    "proj/x.tf".toList ∈ (wtOf stStaged "user/default/3".toList).staged
      ∨ "proj/x.tf".toList ∈ ["vars.tf".toList].map
          (fun f => getInfrastructurePath stStaged.projectPath "user/default/3".toList
            ++ "/".toList ++ f) :=
  (claim_C9_empty_file_list stStaged "user/default/3".toList "msg".toList).2
    ["vars.tf".toList] (by decide) "proj/x.tf".toList (by decide)

theorem branchHead_mem (st : GitState) (b : Str) (h : Nat)
    (hh : branchHead st b = some h) : b ∈ branchNames st := by
  unfold branchHead at hh
  split at hh
  · next p hp =>
    have h1 : p.1 = b := by simpa using List.find?_some hp
    have h2 : p ∈ st.branches := List.mem_of_find?_eq_some hp
    exact h1 ▸ List.mem_map_of_mem _ h2
  · exact absurd hh (by simp)

/-- C5: for existing branches, `check_branch_sync_status` returns
`ahead_count` equal to the number of commits reachable from the branch
head and not from the target head (the `revListCount` model of
`iter_commits`), `behind_count` the reverse, `is_in_sync` exactly when
`behind_count` is zero, `diverged` exactly when both counts are
positive, and one of the four status descriptions chosen by the sign
pattern of the two counts. -/
theorem claim_C5_sync_classification (st : GitState) (b t : Str) (hbn tn : Nat)
    (hrepo : st.isRepo = true) (hbh : branchHead st b = some hbn)
    (hth : branchHead st t = some tn) :
    checkBranchSyncStatus st b (some t)
      = .ok (decide (revListCount st.commits hbn tn = 0))
          (revListCount st.commits tn hbn)
          (revListCount st.commits hbn tn)
          (decide (revListCount st.commits tn hbn > 0 ∧ revListCount st.commits hbn tn > 0))
          (if revListCount st.commits tn hbn = 0 ∧ revListCount st.commits hbn tn = 0
             then .upToDate b t
           else if revListCount st.commits tn hbn > 0 ∧ revListCount st.commits hbn tn = 0
             then .aheadBy b (revListCount st.commits tn hbn)
           else if revListCount st.commits tn hbn = 0 ∧ revListCount st.commits hbn tn > 0
             then .behindBy b (revListCount st.commits hbn tn)
           else .divergedBy b (revListCount st.commits tn hbn)
             (revListCount st.commits hbn tn)) := by
  unfold checkBranchSyncStatus
  simp only [Option.getD_some]
  rw [if_neg (by simp [hrepo])]
  rw [if_neg (not_not_intro (branchHead_mem st b hbn hbh))]
  rw [if_neg (not_not_intro (branchHead_mem st t tn hth))]
  rw [hbh, hth]

/-- Witness for C5: the P6 scenario — 2 unique commits on the branch
and 3 on the target since divergence — reports `ahead_count=2`,
`behind_count=3`, `diverged=true`, status diverged. -/
theorem claim_C5_witness :
    checkBranchSyncStatus stDiverged "A".toList (some "B".toList)
      = .ok false 2 3 true (.divergedBy "A".toList 2 3) :=
  (claim_C5_sync_classification stDiverged "A".toList "B".toList 2 5
    rfl (by decide) (by decide)).trans (by decide)

end Genbase
